import Mathlib

/-!
Verification of the dockerfile-analyzer core against its specification.

Shallow embedding conventions:
* Rust `String` values are modelled as `List Char` (`Tok`), so that the
  character-level operations `starts_with`, `ends_with`, `strip_prefix`,
  `strip_suffix`, `split_once` and `to_lowercase` become plain (and
  kernel-reducible) list operations.
* `shlex::split` is an external crate (the POSIX shell-word tokenizer,
  an external collaborator per the spec); its result is passed in as an
  `Option (List Tok)` argument, `none` modelling a tokenization failure.
* Rust `HashMap` values are modelled as functions `Tok → Option α`
  (`KVMap α`): hash maps have unique keys and no preserved order, so only
  the lookup function matters.  `HashMap::insert` and `HashMap::extend`
  become `mapInsert` and `extendMap`.
* `BTreeSet<String>` values in `analyzer.rs` are modelled as
  `Finset Tok`; the report's sorted deduplicated `Vec<String>` fields
  carry exactly the contents of those sets.
* The upstream grammar parser (`parse_dockerfile` crate) and the image
  decomposer (`docker_image` crate) are external collaborators: analysis
  runs over an already-parsed `ParsedDockerfile`, and the decomposed image
  components, the EXPOSE port set, and the per-kind instruction counters
  are omitted since no claim concerns them.
* Rust `to_lowercase` is modelled by mapping `Char.toLower` (they agree
  on ASCII, which is all the keywords involved use).
-/

namespace DockerfileAnalyzer

/-! ## parse_utils.rs -/

abbrev Tok := List Char

def strTok (s : String) : Tok := s.data

def ARG_LC : Tok := strTok "arg"

def ENV_LC : Tok := strTok "env"

def LABEL_LC : Tok := strTok "label"

def EQUALS : Char := '='

/-- Rust `s.to_lowercase()` on a token. -/
def lowerTok (t : Tok) : Tok := t.map Char.toLower

/-- The `retain` predicate of `extract_tokens_from_instr`:
keep a token iff it is non-empty, its lowercase form is none of
"arg"/"env"/"label", and it is not a bare carriage return. -/
def keepTok (t : Tok) : Bool :=
  !t.isEmpty && !(lowerTok t == ARG_LC) && !(lowerTok t == ENV_LC)
    && !(lowerTok t == LABEL_LC) && !(t == ['\r'])

/-- Rust `tok.starts_with(EQUALS)`. -/
def startsWithEq (t : Tok) : Bool := t.head? == some EQUALS

/-- Rust `tok.ends_with(EQUALS)`. -/
def endsWithEq (t : Tok) : Bool := t.getLast? == some EQUALS

/-- Rust `tok.split_once(EQUALS)`: split at the first `'='`, if any. -/
def splitOnceEq : Tok → Option (Tok × Tok)
  | [] => none
  | c :: rest =>
    if c = EQUALS then some ([], rest)
    else (splitOnceEq rest).map (fun p => (c :: p.1, p.2))

/-- One iteration of the equals-sign disambiguation loop of
`extract_tokens_from_instr`: the output tokens contributed by `tok`
given the previous raw token `prev` (post noise-strip). -/
def procTok (prev : Option Tok) (tok : Tok) : List Tok :=
  if tok = [EQUALS] then []
  else if startsWithEq tok then [tok.tail]
  else if endsWithEq tok then [tok.dropLast]
  else if (match prev with | some p => endsWithEq p | none => false) then [tok]
  else
    match splitOnceEq tok with
    | some kv => [kv.1, kv.2]
    | none => [tok]

/-- The equals-sign disambiguation loop, threading the previous raw token. -/
def extract_loop : Option Tok → List Tok → List Tok
  | _, [] => []
  | prev, t :: ts => procTok prev t ++ extract_loop (some t) ts

/-- `extract_tokens_from_instr`: `shlexed` is the result of
`shlex::split` on the raw instruction text (`none` = tokenization
failure, yielding no tokens). -/
def extract_tokens_from_instr (shlexed : Option (List Tok)) : List Tok :=
  match shlexed with
  | none => []
  | some toks => extract_loop none (toks.filter keepTok)

/-- Rust `HashMap<String, α>` modelled by its lookup function. -/
def KVMap (α : Type) : Type := Tok → Option α

def emptyKV {α : Type} : KVMap α := fun _ => none

/-- `HashMap::insert`. -/
def mapInsert {α : Type} (m : KVMap α) (k : Tok) (v : α) : KVMap α :=
  fun x => if x = k then some v else m x

/-- `HashMap::extend`: entries of `new` override entries of `m`. -/
def extendMap {α : Type} (m new : KVMap α) : KVMap α :=
  fun k =>
    match new k with
    | some v => some v
    | none => m k

/-- `vec_to_map`, processing `chunks(2)` in order; a trailing unpaired
key maps to the empty string. -/
def vec_to_map_aux (m : KVMap Tok) : List Tok → KVMap Tok
  | [] => m
  | [k] => mapInsert m k []
  | k :: v :: rest => vec_to_map_aux (mapInsert m k v) rest

def vec_to_map (v : List Tok) : KVMap Tok := vec_to_map_aux emptyKV v

/-- `vec_to_map_opt_val`, processing `chunks(2)` in order; a trailing
unpaired key maps to the distinguished `none` marker. -/
def vec_to_map_opt_val_aux (m : KVMap (Option Tok)) : List Tok → KVMap (Option Tok)
  | [] => m
  | [k] => mapInsert m k none
  | k :: v :: rest => vec_to_map_opt_val_aux (mapInsert m k (some v)) rest

def vec_to_map_opt_val (v : List Tok) : KVMap (Option Tok) :=
  vec_to_map_opt_val_aux emptyKV v

/-- `parse_kv_instruction` (ENV/LABEL entry point). -/
def parse_kv_instruction (ins : Option (List Tok)) : KVMap Tok :=
  vec_to_map (extract_tokens_from_instr ins)

/-- `parse_kv_instruction_opt_val` (ARG entry point). -/
def parse_kv_instruction_opt_val (ins : Option (List Tok)) : KVMap (Option Tok) :=
  vec_to_map_opt_val (extract_tokens_from_instr ins)

example : extract_tokens_from_instr (some [strTok "ENV", strTok "A=b"]) =
    [strTok "A", strTok "b"] := by decide

example : extract_tokens_from_instr (some [strTok "ENV", strTok "A=", strTok "b=c"]) =
    [strTok "A", strTok "b=c"] := by decide

example : parse_kv_instruction (some [strTok "ENV", strTok "A=b"]) (strTok "A") =
    some (strTok "b") := by decide

/-! ## analyzer.rs -/

/-- `parse_dockerfile::Flag`: a `--name=value` flag on COPY/ADD
(name plus optional value). -/
structure Flag where
  name : Tok
  value : Option Tok
deriving DecidableEq

/-- Modelled from the spec: `constants::FROM` lives in `constants.rs`,
which is not part of the provided sources; per the spec the scan looks
for "a flag literally named \"from\"". -/
def FROM : Tok := strTok "from"

/-- `parse_dockerfile::Stage` as used by `extract_stage_info`:
the base-image expression text and the optional `AS` alias. -/
structure Stage where
  image : Tok
  alias? : Option Tok
deriving DecidableEq

/-- The instruction variants the analyzed claims touch.  COPY/ADD carry
their ordered flag list; ARG/ENV/LABEL carry the `shlex::split` result of
their raw argument text (`none` = tokenization failure).  All remaining
variants are collapsed into `other` (no claim concerns them). -/
inductive Instruction where
  | copy (options : List Flag)
  | add (options : List Flag)
  | arg (arguments : Option (List Tok))
  | env (arguments : Option (List Tok))
  | label (arguments : Option (List Tok))
  | other
deriving DecidableEq

/-- `get_from_flag_val`: first flag named "from" with a present value. -/
def get_from_flag_val : List Flag → Option Tok
  | [] => none
  | f :: fs =>
    if f.name = FROM then
      match f.value with
      | some v => some v
      | none => get_from_flag_val fs
    else get_from_flag_val fs

/-- `models::MultistageAnalysis` (list fields as the underlying sets). -/
structure MultistageAnalysis where
  is_multistage : Bool
  stages_used_as_base_images : Finset Tok
  stages_copied_from : Finset Tok
  stages_added_from : Finset Tok
  unused_stages : Finset Tok

/-- `analyze_multistage`. -/
def analyze_multistage (num_stages : Nat) (images stage_names copy_from_stages
    add_from_stages : Finset Tok) : MultistageAnalysis :=
  let stages_used_as_base_images := stage_names ∩ images
  let stages_copied_from := stage_names ∩ copy_from_stages
  let stages_added_from := stage_names ∩ add_from_stages
  let used_stages := stages_used_as_base_images ∪ stages_copied_from ∪ stages_added_from
  { is_multistage := decide (2 ≤ num_stages) && !(decide (used_stages = ∅))
    stages_used_as_base_images := stages_used_as_base_images
    stages_copied_from := stages_copied_from
    stages_added_from := stages_added_from
    unused_stages := stage_names \ used_stages }

/-- The sigil-aware case folding applied to a base-image expression in
`extract_stage_info`: Rust `value.starts_with('$')` keeps the expression
verbatim, all others are lowercased. -/
def sigilLower (value : Tok) : Tok :=
  if value.head? = some '$' then value else lowerTok value

/-- `extract_stage_info`: the set of base-image expressions (sigil-aware
lowercasing) and the set of stage aliases (lowercased unconditionally). -/
def extract_stage_info (stages : List Stage) : Finset Tok × Finset Tok :=
  ((stages.map (fun s => sigilLower s.image)).toFinset,
   ((stages.filterMap Stage.alias?).map lowerTok).toFinset)

/-- `extract_from_references`: the lowercased `--from` values of COPY
instructions and of ADD instructions. -/
def extract_from_references : List Instruction → Finset Tok × Finset Tok
  | [] => (∅, ∅)
  | ins :: rest =>
    let acc := extract_from_references rest
    match ins with
    | .copy opts =>
      match get_from_flag_val opts with
      | some v => (insert (lowerTok v) acc.1, acc.2)
      | none => acc
    | .add opts =>
      match get_from_flag_val opts with
      | some v => (acc.1, insert (lowerTok v) acc.2)
      | none => acc
    | _ => acc

/-- `models::KeyValueInstr`. -/
structure KeyValueInstr where
  args : KVMap (Option Tok)
  labels : KVMap Tok
  env_vars : KVMap Tok

/-- One step of the `extract_key_value_pairs` loop. -/
def extract_kv_step (acc : KeyValueInstr) : Instruction → KeyValueInstr
  | .arg a => { acc with args := extendMap acc.args (parse_kv_instruction_opt_val a) }
  | .label l => { acc with labels := extendMap acc.labels (parse_kv_instruction l) }
  | .env e => { acc with env_vars := extendMap acc.env_vars (parse_kv_instruction e) }
  | _ => acc

/-- `extract_key_value_pairs`. -/
def extract_key_value_pairs (instructions : List Instruction) : KeyValueInstr :=
  instructions.foldl extract_kv_step ⟨emptyKV, emptyKV, emptyKV⟩

/-- The output of the upstream grammar parser (`parse_dockerfile::parse`):
the stage sequence and the instruction sequence. -/
structure ParsedDockerfile where
  stages : List Stage
  instructions : List Instruction
deriving DecidableEq

/-- `models::Analysis` restricted to the fields the claims concern
(image decomposition, EXPOSE ports and instruction counters omitted). -/
structure Analysis where
  num_stages : Nat
  images : Finset Tok
  stage_names : Finset Tok
  copy_from_stages : Finset Tok
  add_from_stages : Finset Tok
  multistage_analysis : MultistageAnalysis
  args : KVMap (Option Tok)
  labels : KVMap Tok
  env_vars : KVMap Tok

/-- The body of `analyze_dockerfile` after the upstream parse succeeded. -/
def analyze_dockerfile_parsed (df : ParsedDockerfile) : Analysis :=
  let num_stages := df.stages.length
  let si := extract_stage_info df.stages
  let fr := extract_from_references df.instructions
  let multistage_analysis := analyze_multistage num_stages si.1 si.2 fr.1 fr.2
  let kv_pairs := extract_key_value_pairs df.instructions
  { num_stages := num_stages
    images := si.1
    stage_names := si.2
    copy_from_stages := fr.1
    add_from_stages := fr.2
    multistage_analysis := multistage_analysis
    args := kv_pairs.args
    labels := kv_pairs.labels
    env_vars := kv_pairs.env_vars }

/-- `analyze_dockerfile`: the only failure is the upstream parser's
(`parse(body)?`), modelled as the `none` case of its result. -/
def analyze_dockerfile : Option ParsedDockerfile → Except String Analysis
  | none => .error "parse error"
  | some df => .ok (analyze_dockerfile_parsed df)

example :
    (analyze_dockerfile_parsed
      ⟨[⟨strTok "ubuntu", some (strTok "Build")⟩, ⟨strTok "build", none⟩],
       []⟩).multistage_analysis.is_multistage = true := by decide

example :
    (analyze_dockerfile_parsed
      ⟨[⟨strTok "ubuntu", some (strTok "build")⟩, ⟨strTok "alpine", none⟩],
       []⟩).multistage_analysis.is_multistage = false := by decide

/-! ## Claims -/

/-- C1: for every analysis, the multistage sub-report satisfies the spec's
set equations: `stages_used_as_base_images` is the alias set intersected
with the base-image-expression set, `stages_copied_from` and
`stages_added_from` are the alias set intersected with the COPY-from and
ADD-from value sets, `unused_stages` is the alias set minus the union of
those three intersections, and `is_multistage` holds exactly when the
stage count is at least 2 and that union is non-empty. -/
theorem C1_multistage_set_equations (df : ParsedDockerfile) :
    let a := analyze_dockerfile_parsed df
    let r := a.multistage_analysis
    let used := r.stages_used_as_base_images ∪ r.stages_copied_from ∪ r.stages_added_from
    r.stages_used_as_base_images = a.stage_names ∩ a.images ∧
    r.stages_copied_from = a.stage_names ∩ a.copy_from_stages ∧
    r.stages_added_from = a.stage_names ∩ a.add_from_stages ∧
    r.unused_stages = a.stage_names \ used ∧
    (r.is_multistage = true ↔ 2 ≤ a.num_stages ∧ used ≠ ∅) := by
  refine ⟨rfl, rfl, rfl, rfl, ?_⟩
  simp [analyze_dockerfile_parsed, analyze_multistage]

/-- C2: for every analysis, `unused_stages` and
`stages_used_as_base_images ∪ stages_copied_from ∪ stages_added_from`
are disjoint and their union is the full alias set. -/
theorem C2_partition_law (df : ParsedDockerfile) :
    let a := analyze_dockerfile_parsed df
    let r := a.multistage_analysis
    let used := r.stages_used_as_base_images ∪ r.stages_copied_from ∪ r.stages_added_from
    r.unused_stages ∩ used = ∅ ∧ r.unused_stages ∪ used = a.stage_names := by
  constructor <;>
    · ext x
      simp [analyze_dockerfile_parsed, analyze_multistage]
      try tauto

/-- C8: the extracted from-value of a COPY/ADD flag list is the value of
the first flag named "from" whose value is present (flags named "from"
without a value are skipped); if no such flag exists, no value is
extracted. -/
theorem C8_first_from_flag (flags : List Flag) :
    get_from_flag_val flags
      = ((flags.filter (fun f => f.name == FROM && f.value.isSome)).head?).bind Flag.value := by
  induction flags with
  | nil => rfl
  | cons f fs ih =>
    by_cases h1 : f.name = FROM
    · cases hv : f.value with
      | some v => simp [get_from_flag_val, h1, hv, List.filter_cons]
      | none => simp [get_from_flag_val, h1, hv, ih, List.filter_cons]
    · simp [get_from_flag_val, h1, ih, List.filter_cons]

/-- C3 (counterexample): on the token sequence `["A=", "="]`, the token
`"A="` ends with `=`, yet the next raw token `"="` is NOT emitted
unchanged — it is dropped by the higher-priority exact-`"="` branch, so
the output is `["A"]`, not `["A", "="]` as the claim predicts. -/
theorem C3_counterexample :
    extract_tokens_from_instr (some [strTok "A=", strTok "="]) = [strTok "A"] ∧
    extract_tokens_from_instr (some [strTok "A=", strTok "="]) ≠ [strTok "A", strTok "="] := by
  decide

/-- C3 (amended): a token that ends with `=`, is not exactly `"="` and
does not also start with `=`, emits its prefix with the trailing `=`
removed, and forces the next raw token to be emitted unchanged
(bypassing equals-splitting) PROVIDED that next token is not exactly
`"="`, does not start with `=`, and does not end with `=` — those cases
are claimed by their own higher-priority branches first. -/
theorem C3_forced_literal_next_token (p : Option Tok) (t nxt : Tok) (ts : List Tok)
    (h1 : endsWithEq t = true) (h2 : t ≠ [EQUALS]) (h3 : startsWithEq t = false)
    (h4 : nxt ≠ [EQUALS]) (h5 : startsWithEq nxt = false) (h6 : endsWithEq nxt = false) :
    extract_loop p (t :: nxt :: ts) = t.dropLast :: nxt :: extract_loop (some nxt) ts := by
  simp [extract_loop, procTok, h1, h2, h3, h4, h5, h6]

/-- C3 (witness): `["A=", "B=C"]` decodes to `["A", "B=C"]` — the token
after `"A="` is passed through verbatim, its internal `=` not split. -/
theorem C3_forced_literal_next_token_witness :
    extract_loop none [strTok "A=", strTok "B=C"] = [strTok "A", strTok "B=C"] := by
  have h := C3_forced_literal_next_token none (strTok "A=") (strTok "B=C") []
    (by decide) (by decide) (by decide) (by decide) (by decide) (by decide)
  simpa using h

/-- The noise-strip predicate `keepTok` keeps exactly the tokens outside
the drop set {empty, lowercases-to-"arg"/"env"/"label", bare CR}. -/
theorem keepTok_iff (t : Tok) :
    keepTok t = true ↔
      ¬(t = [] ∨ lowerTok t = ARG_LC ∨ lowerTok t = ENV_LC ∨ lowerTok t = LABEL_LC
        ∨ t = ['\r']) := by
  simp [keepTok, not_or]
  tauto

/-- C4 (counterexample): decoding the ENV instruction `ENV X arg`, the
value token `"arg"` IS dropped (the code strips all three keywords in
every entry point), so `X` maps to `""`, not to `"arg"` as the claim
predicts. -/
theorem C4_counterexample :
    parse_kv_instruction (some [strTok "ENV", strTok "X", strTok "arg"]) (strTok "X")
      = some (strTok "") ∧
    parse_kv_instruction (some [strTok "ENV", strTok "X", strTok "arg"]) (strTok "X")
      ≠ some (strTok "arg") := by
  decide

/-- C4 (amended): in the noise-stripping step, for every token sequence,
exactly these tokens are dropped — empty strings, bare carriage-return
tokens, and every occurrence of a token case-insensitively equal to ANY
of the three keywords "arg", "env", "label", regardless of which
instruction is being decoded; all other tokens survive with their
multiplicities intact. -/
theorem C4_noise_strip_drop_set (toks : List Tok) (t : Tok) :
    (t ∈ toks.filter keepTok ↔
      t ∈ toks ∧ ¬(t = [] ∨ lowerTok t = ARG_LC ∨ lowerTok t = ENV_LC
        ∨ lowerTok t = LABEL_LC ∨ t = ['\r'])) ∧
    (toks.filter keepTok).count t
      = (if t = [] ∨ lowerTok t = ARG_LC ∨ lowerTok t = ENV_LC ∨ lowerTok t = LABEL_LC
          ∨ t = ['\r'] then 0 else toks.count t) ∧
    extract_tokens_from_instr (some toks) = extract_loop none (toks.filter keepTok) := by
  refine ⟨?_, ?_, rfl⟩
  · rw [List.mem_filter, keepTok_iff]
  · by_cases hd : t = [] ∨ lowerTok t = ARG_LC ∨ lowerTok t = ENV_LC ∨ lowerTok t = LABEL_LC
        ∨ t = ['\r']
    · rw [if_pos hd, List.count_eq_zero]
      intro hmem
      exact (keepTok_iff t).mp (List.mem_filter.mp hmem).2 hd
    · rw [if_neg hd]
      exact List.count_filter ((keepTok_iff t).mpr hd)

/-- Folding an even-length prefix commutes with continuing the fold
(`vec_to_map` version): the chunks of `v ++ rest` are the chunks of `v`
followed by those of `rest` when `v` has even length. -/
theorem vec_to_map_aux_append : ∀ (v : List Tok) (m : KVMap Tok) (rest : List Tok),
    v.length % 2 = 0 →
    vec_to_map_aux m (v ++ rest) = vec_to_map_aux (vec_to_map_aux m v) rest
  | [], _, _, _ => rfl
  | [_], _, _, h => by simp at h
  | k :: val :: t, m, rest, h => by
    have h' : t.length % 2 = 0 := by simp only [List.length_cons] at h; omega
    have ih := vec_to_map_aux_append t (mapInsert m k val) rest h'
    simpa [vec_to_map_aux] using ih

/-- Folding an even-length prefix commutes with continuing the fold
(`vec_to_map_opt_val` version). -/
theorem vec_to_map_opt_val_aux_append : ∀ (v : List Tok) (m : KVMap (Option Tok))
    (rest : List Tok), v.length % 2 = 0 →
    vec_to_map_opt_val_aux m (v ++ rest) = vec_to_map_opt_val_aux (vec_to_map_opt_val_aux m v) rest
  | [], _, _, _ => rfl
  | [_], _, _, h => by simp at h
  | k :: val :: t, m, rest, h => by
    have h' : t.length % 2 = 0 := by simp only [List.length_cons] at h; omega
    have ih := vec_to_map_opt_val_aux_append t (mapInsert m k (some val)) rest h'
    simpa [vec_to_map_opt_val_aux] using ih

/-- C5: the fold-to-mapping step pairs tokens two at a time, each pair
`(k, val)` mapping `k` to `val` and overriding any earlier pair with the
same key (last write wins); a trailing unpaired token maps to the empty
string in the ENV/LABEL entry point and to the distinguished no-default
marker (`none`, distinct from an explicit empty string) in the ARG entry
point; and decoding `ENV VAR=first VAR=second` yields `VAR ↦ "second"`. -/
theorem C5_fold_to_mapping (v : List Tok) (hv : v.length % 2 = 0) (k val k2 : Tok) :
    (vec_to_map (v ++ [k, val]) k2 = if k2 = k then some val else vec_to_map v k2) ∧
    (vec_to_map_opt_val (v ++ [k, val]) k2
      = if k2 = k then some (some val) else vec_to_map_opt_val v k2) ∧
    vec_to_map (v ++ [k]) k = some [] ∧
    vec_to_map_opt_val (v ++ [k]) k = some none ∧
    vec_to_map_opt_val (v ++ [k]) k ≠ some (some []) ∧
    parse_kv_instruction (some [strTok "ENV", strTok "VAR=first", strTok "VAR=second"])
      (strTok "VAR") = some (strTok "second") := by
  refine ⟨?_, ?_, ?_, ?_, ?_, by decide⟩
  · rw [vec_to_map, vec_to_map_aux_append v emptyKV _ hv]; rfl
  · rw [vec_to_map_opt_val, vec_to_map_opt_val_aux_append v emptyKV _ hv]; rfl
  · rw [vec_to_map, vec_to_map_aux_append v emptyKV _ hv]
    simp [vec_to_map_aux, mapInsert]
  · rw [vec_to_map_opt_val, vec_to_map_opt_val_aux_append v emptyKV _ hv]
    simp [vec_to_map_opt_val_aux, mapInsert]
  · rw [vec_to_map_opt_val, vec_to_map_opt_val_aux_append v emptyKV _ hv]
    simp [vec_to_map_opt_val_aux, mapInsert]

/-- C5 (witness): concrete instances of the pairing, last-write-wins and
no-default-marker conclusions. -/
theorem C5_fold_to_mapping_witness :
    vec_to_map ([strTok "A", strTok "1"] ++ [strTok "VAR", strTok "x"]) (strTok "VAR")
      = some (strTok "x") ∧
    vec_to_map_opt_val ([strTok "A", strTok "1"] ++ [strTok "VAR"]) (strTok "VAR")
      = some none := by
  have h := C5_fold_to_mapping [strTok "A", strTok "1"] (by decide) (strTok "VAR")
    (strTok "x") (strTok "VAR")
  exact ⟨by simpa using h.1, h.2.2.2.1⟩

/-- C6: when shell-word tokenization fails (a `none` result), both
decoder entry points yield an empty mapping, an ARG/ENV/LABEL
instruction with failed tokenization contributes nothing to the
accumulated key/value maps, and the analysis of a parsed file always
succeeds (no error is introduced after the upstream parse). -/
theorem C6_tokenization_failure_degrades :
    (∀ k, parse_kv_instruction none k = none) ∧
    (∀ k, parse_kv_instruction_opt_val none k = none) ∧
    (∀ instrs, extract_key_value_pairs (Instruction.arg none :: instrs)
      = extract_key_value_pairs instrs) ∧
    (∀ instrs, extract_key_value_pairs (Instruction.env none :: instrs)
      = extract_key_value_pairs instrs) ∧
    (∀ instrs, extract_key_value_pairs (Instruction.label none :: instrs)
      = extract_key_value_pairs instrs) ∧
    (∀ df, analyze_dockerfile (some df) = Except.ok (analyze_dockerfile_parsed df)) :=
  ⟨fun _ => rfl, fun _ => rfl, fun _ => rfl, fun _ => rfl, fun _ => rfl, fun _ => rfl⟩

/-- C7: every recorded alias name is the unconditionally lowercased form
of a declared alias (and conversely each declared alias is recorded
lowercased), and every recorded base-image expression is the lowercased
form of a stage's expression EXCEPT those beginning with the `$` sigil,
which are recorded verbatim. -/
theorem C7_case_folding (stages : List Stage) :
    (∀ x ∈ (extract_stage_info stages).1, ∃ s ∈ stages, x = sigilLower s.image) ∧
    (∀ s ∈ stages, sigilLower s.image ∈ (extract_stage_info stages).1) ∧
    (∀ s ∈ stages, s.image.head? = some '$' → s.image ∈ (extract_stage_info stages).1) ∧
    (∀ s ∈ stages, s.image.head? ≠ some '$' →
      lowerTok s.image ∈ (extract_stage_info stages).1) ∧
    (∀ n ∈ (extract_stage_info stages).2, ∃ s ∈ stages, ∃ a,
      s.alias? = some a ∧ n = lowerTok a) ∧
    (∀ s ∈ stages, ∀ a, s.alias? = some a → lowerTok a ∈ (extract_stage_info stages).2) := by
  refine ⟨?_, ?_, ?_, ?_, ?_, ?_⟩
  · intro x hx
    simp only [extract_stage_info, List.mem_toFinset, List.mem_map] at hx
    obtain ⟨s, hs, hsx⟩ := hx
    exact ⟨s, hs, hsx.symm⟩
  · intro s hs
    simp only [extract_stage_info, List.mem_toFinset, List.mem_map]
    exact ⟨s, hs, rfl⟩
  · intro s hs h
    have he : sigilLower s.image = s.image := by simp [sigilLower, h]
    simp only [extract_stage_info, List.mem_toFinset, List.mem_map]
    exact ⟨s, hs, he⟩
  · intro s hs h
    have he : sigilLower s.image = lowerTok s.image := by simp [sigilLower, h]
    simp only [extract_stage_info, List.mem_toFinset, List.mem_map]
    exact ⟨s, hs, he⟩
  · intro n hn
    simp only [extract_stage_info, List.mem_toFinset, List.mem_map,
      List.mem_filterMap] at hn
    obtain ⟨a, ⟨s, hs, hsa⟩, han⟩ := hn
    exact ⟨s, hs, a, hsa, han.symm⟩
  · intro s hs a ha
    simp only [extract_stage_info, List.mem_toFinset, List.mem_map, List.mem_filterMap]
    exact ⟨a, ⟨s, hs, ha⟩, rfl⟩

/-- C7 (witness): a `$BASE` expression is recorded verbatim and a
`Build` alias is recorded as `build`. -/
theorem C7_case_folding_witness :
    strTok "$BASE" ∈ (extract_stage_info [⟨strTok "$BASE", some (strTok "Build")⟩]).1 ∧
    strTok "build" ∈ (extract_stage_info [⟨strTok "$BASE", some (strTok "Build")⟩]).2 := by
  have h := C7_case_folding [⟨strTok "$BASE", some (strTok "Build")⟩]
  refine ⟨h.2.2.1 ⟨strTok "$BASE", some (strTok "Build")⟩ (by simp) (by decide), ?_⟩
  have hm := h.2.2.2.2.2 ⟨strTok "$BASE", some (strTok "Build")⟩ (by simp)
    (strTok "Build") rfl
  have he : lowerTok (strTok "Build") = strTok "build" := by decide
  exact he ▸ hm

/-- Every member of the collected COPY-from set is the lowercased
`--from` value of some COPY instruction of the file. -/
theorem mem_extract_from_references_copy (instrs : List Instruction) (x : Tok)
    (hx : x ∈ (extract_from_references instrs).1) :
    ∃ opts, Instruction.copy opts ∈ instrs ∧
      ∃ v, get_from_flag_val opts = some v ∧ x = lowerTok v := by
  induction instrs with
  | nil => simp [extract_from_references] at hx
  | cons ins rest ih =>
    have step : x ∈ (extract_from_references rest).1 →
        ∃ opts, Instruction.copy opts ∈ ins :: rest ∧
          ∃ v, get_from_flag_val opts = some v ∧ x = lowerTok v := by
      intro hm
      obtain ⟨o, ho, w, hw, hx'⟩ := ih hm
      exact ⟨o, List.mem_cons_of_mem ins ho, w, hw, hx'⟩
    cases ins with
    | copy opts =>
      cases hv : get_from_flag_val opts with
      | some v =>
        simp only [extract_from_references, hv] at hx
        rcases Finset.mem_insert.mp hx with he | hm
        · exact ⟨opts, List.mem_cons_self _ _, v, hv, he⟩
        · exact step hm
      | none =>
        simp only [extract_from_references, hv] at hx
        exact step hx
    | add opts =>
      cases hv : get_from_flag_val opts with
      | some v =>
        simp only [extract_from_references, hv] at hx
        exact step hx
      | none =>
        simp only [extract_from_references, hv] at hx
        exact step hx
    | arg a =>
      simp only [extract_from_references] at hx
      exact step hx
    | env e =>
      simp only [extract_from_references] at hx
      exact step hx
    | label l =>
      simp only [extract_from_references] at hx
      exact step hx
    | other =>
      simp only [extract_from_references] at hx
      exact step hx

/-- Every member of the collected ADD-from set is the lowercased
`--from` value of some ADD instruction of the file. -/
theorem mem_extract_from_references_add (instrs : List Instruction) (x : Tok)
    (hx : x ∈ (extract_from_references instrs).2) :
    ∃ opts, Instruction.add opts ∈ instrs ∧
      ∃ v, get_from_flag_val opts = some v ∧ x = lowerTok v := by
  induction instrs with
  | nil => simp [extract_from_references] at hx
  | cons ins rest ih =>
    have step : x ∈ (extract_from_references rest).2 →
        ∃ opts, Instruction.add opts ∈ ins :: rest ∧
          ∃ v, get_from_flag_val opts = some v ∧ x = lowerTok v := by
      intro hm
      obtain ⟨o, ho, w, hw, hx'⟩ := ih hm
      exact ⟨o, List.mem_cons_of_mem ins ho, w, hw, hx'⟩
    cases ins with
    | copy opts =>
      cases hv : get_from_flag_val opts with
      | some v =>
        simp only [extract_from_references, hv] at hx
        exact step hx
      | none =>
        simp only [extract_from_references, hv] at hx
        exact step hx
    | add opts =>
      cases hv : get_from_flag_val opts with
      | some v =>
        simp only [extract_from_references, hv] at hx
        rcases Finset.mem_insert.mp hx with he | hm
        · exact ⟨opts, List.mem_cons_self _ _, v, hv, he⟩
        · exact step hm
      | none =>
        simp only [extract_from_references, hv] at hx
        exact step hx
    | arg a =>
      simp only [extract_from_references] at hx
      exact step hx
    | env e =>
      simp only [extract_from_references] at hx
      exact step hx
    | label l =>
      simp only [extract_from_references] at hx
      exact step hx
    | other =>
      simp only [extract_from_references] at hx
      exact step hx

/-- C9 (counterexample): a file whose single stage has no alias and
whose COPY pulls from an external image puts `"busybox"` into the
report's `copy_from_stages` even though it is not a member of
`stage_names` (Dockerfile `FROM alpine` + `COPY --from=busybox ...`). -/
theorem C9_counterexample :
    strTok "busybox" ∈ (analyze_dockerfile_parsed
      ⟨[⟨strTok "alpine", none⟩],
       [Instruction.copy [⟨strTok "from", some (strTok "busybox")⟩]]⟩).copy_from_stages ∧
    strTok "busybox" ∉ (analyze_dockerfile_parsed
      ⟨[⟨strTok "alpine", none⟩],
       [Instruction.copy [⟨strTok "from", some (strTok "busybox")⟩]]⟩).stage_names := by
  decide

/-- C9 (amended): every element of the report's `copy_from_stages`
(resp. `add_from_stages`) is the lowercased `--from` value of some COPY
(resp. ADD) instruction — it need not be a declared stage alias; only
the multistage sub-report's `stages_copied_from` / `stages_added_from`
are guaranteed to be subsets of `stage_names`. -/
theorem C9_from_values_characterization (df : ParsedDockerfile) :
    (∀ x ∈ (analyze_dockerfile_parsed df).copy_from_stages,
      ∃ opts, Instruction.copy opts ∈ df.instructions ∧
        ∃ v, get_from_flag_val opts = some v ∧ x = lowerTok v) ∧
    (∀ x ∈ (analyze_dockerfile_parsed df).add_from_stages,
      ∃ opts, Instruction.add opts ∈ df.instructions ∧
        ∃ v, get_from_flag_val opts = some v ∧ x = lowerTok v) ∧
    (analyze_dockerfile_parsed df).multistage_analysis.stages_copied_from
      ⊆ (analyze_dockerfile_parsed df).stage_names ∧
    (analyze_dockerfile_parsed df).multistage_analysis.stages_added_from
      ⊆ (analyze_dockerfile_parsed df).stage_names := by
  refine ⟨?_, ?_, ?_, ?_⟩
  · intro x hx
    exact mem_extract_from_references_copy df.instructions x hx
  · intro x hx
    exact mem_extract_from_references_add df.instructions x hx
  · intro x hx
    exact (Finset.mem_inter.mp hx).1
  · intro x hx
    exact (Finset.mem_inter.mp hx).1

/-- C9 (witness): applying the characterization to a file with a single
`COPY --from=UP` instruction locates that instruction for the recorded
value `"up"`. -/
theorem C9_from_values_characterization_witness :
    ∃ opts, Instruction.copy opts ∈
      [Instruction.copy [⟨strTok "from", some (strTok "UP")⟩]] ∧
      ∃ v, get_from_flag_val opts = some v ∧ strTok "up" = lowerTok v := by
  have h := C9_from_values_characterization
    ⟨[], [Instruction.copy [⟨strTok "from", some (strTok "UP")⟩]]⟩
  exact h.1 (strTok "up") (by decide)

/-- `split_once('=')` finds nothing in an equals-free token. -/
theorem splitOnceEq_eq_none (t : Tok) (h : EQUALS ∉ t) : splitOnceEq t = none := by
  induction t with
  | nil => rfl
  | cons c rest ih =>
    have hc : ¬c = EQUALS := fun e => h (e ▸ List.mem_cons_self c rest)
    rw [splitOnceEq, if_neg hc, ih (fun hm => h (List.mem_cons_of_mem c hm))]
    rfl

/-- An equals-free token does not start with `=`. -/
theorem startsWithEq_eq_false (k : Tok) (h : EQUALS ∉ k) : startsWithEq k = false := by
  cases k with
  | nil => rfl
  | cons c t =>
    have hc : c ≠ EQUALS := fun e => h (e ▸ List.mem_cons_self c t)
    simp [startsWithEq, hc]

/-- An equals-free token does not end with `=`. -/
theorem endsWithEq_eq_false (k : Tok) (h : EQUALS ∉ k) : endsWithEq k = false := by
  unfold endsWithEq
  cases hg : k.getLast? with
  | none => rfl
  | some c =>
    have hc : c ≠ EQUALS := fun e => h (e ▸ List.mem_of_getLast?_eq_some hg)
    simp [hc]

/-- A token with a trailing `=` appended differs from any equals-free token. -/
theorem append_equals_ne (l w : Tok) (hw : EQUALS ∉ w) : l ++ [EQUALS] ≠ w := fun e =>
  hw (e ▸ List.mem_append_right l (List.mem_singleton_self EQUALS))

/-- A token with a trailing `=` appended always survives the noise strip. -/
theorem keepTok_append_equals (k : Tok) : keepTok (k ++ [EQUALS]) = true := by
  rw [keepTok_iff]
  have hl : lowerTok (k ++ [EQUALS]) = lowerTok k ++ [EQUALS] := by
    simp [lowerTok, show Char.toLower EQUALS = EQUALS from by decide]
  intro hd
  rcases hd with h0 | h1 | h2 | h3 | h4
  · exact absurd h0 (by simp)
  · rw [hl] at h1
    exact append_equals_ne _ _ (by decide) h1
  · rw [hl] at h2
    exact append_equals_ne _ _ (by decide) h2
  · rw [hl] at h3
    exact append_equals_ne _ _ (by decide) h3
  · exact append_equals_ne _ _ (by decide) h4

/-- C10: in the ARG entry point, an instruction whose only non-keyword
token is `KEY=` (an equals-free key with one trailing `=` and no
following value token) decodes to exactly the same mapping as a bare
`KEY` token: `KEY` carries the no-default marker (`none`), which is
distinct from an explicit empty-string default. -/
theorem C10_trailing_equals_no_default (k : Tok) (h1 : k ≠ []) (h2 : EQUALS ∉ k)
    (h3 : lowerTok k ≠ ARG_LC) (h4 : lowerTok k ≠ ENV_LC) (h5 : lowerTok k ≠ LABEL_LC)
    (h6 : k ≠ ['\r']) :
    parse_kv_instruction_opt_val (some [strTok "ARG", k ++ [EQUALS]])
      = parse_kv_instruction_opt_val (some [strTok "ARG", k]) ∧
    parse_kv_instruction_opt_val (some [strTok "ARG", k ++ [EQUALS]]) k = some none ∧
    parse_kv_instruction_opt_val (some [strTok "ARG", k ++ [EQUALS]]) k ≠ some (some []) := by
  have hkeepA : keepTok (strTok "ARG") = false := by decide
  have hkeep1 : keepTok (k ++ [EQUALS]) = true := keepTok_append_equals k
  have hkeep2 : keepTok k = true := by
    rw [keepTok_iff]
    intro hd
    rcases hd with h | h | h | h | h
    exacts [h1 h, h3 h, h4 h, h5 h, h6 h]
  have hne1 : (k ++ [EQUALS]) ≠ [EQUALS] := by
    intro e
    have hlen := congrArg List.length e
    simp only [List.length_append, List.length_cons, List.length_nil] at hlen
    exact h1 (List.length_eq_zero.mp (by omega))
  have hsw1 : startsWithEq (k ++ [EQUALS]) = false := by
    cases k with
    | nil => exact absurd rfl h1
    | cons c t =>
      have hc : c ≠ EQUALS := fun e => h2 (e ▸ List.mem_cons_self c t)
      simp [startsWithEq, hc]
  have hew1 : endsWithEq (k ++ [EQUALS]) = true := by
    simp [endsWithEq, List.getLast?_concat]
  have hloop1 : extract_loop none [k ++ [EQUALS]] = [k] := by
    simp [extract_loop, procTok, hne1, hsw1, hew1, List.dropLast_concat]
  have hnek : k ≠ [EQUALS] := fun e => h2 (by rw [e]; exact List.mem_singleton_self EQUALS)
  have hloop2 : extract_loop none [k] = [k] := by
    simp [extract_loop, procTok, hnek, startsWithEq_eq_false k h2,
      endsWithEq_eq_false k h2, splitOnceEq_eq_none k h2]
  have ht1 : extract_tokens_from_instr (some [strTok "ARG", k ++ [EQUALS]]) = [k] := by
    show extract_loop none (List.filter keepTok [strTok "ARG", k ++ [EQUALS]]) = [k]
    rw [List.filter_cons_of_neg (by simp [hkeepA]), List.filter_cons_of_pos hkeep1]
    exact hloop1
  have ht2 : extract_tokens_from_instr (some [strTok "ARG", k]) = [k] := by
    show extract_loop none (List.filter keepTok [strTok "ARG", k]) = [k]
    rw [List.filter_cons_of_neg (by simp [hkeepA]), List.filter_cons_of_pos hkeep2]
    exact hloop2
  refine ⟨?_, ?_, ?_⟩
  · unfold parse_kv_instruction_opt_val
    rw [ht1, ht2]
  · unfold parse_kv_instruction_opt_val
    rw [ht1]
    simp [vec_to_map_opt_val, vec_to_map_opt_val_aux, mapInsert]
  · unfold parse_kv_instruction_opt_val
    rw [ht1]
    simp [vec_to_map_opt_val, vec_to_map_opt_val_aux, mapInsert]

/-- C10 (witness): `ARG KEY=` gives `KEY` the no-default marker. -/
theorem C10_trailing_equals_no_default_witness :
    parse_kv_instruction_opt_val (some [strTok "ARG", strTok "KEY="]) (strTok "KEY")
      = some none := by
  have h := C10_trailing_equals_no_default (strTok "KEY") (by decide) (by decide)
    (by decide) (by decide) (by decide) (by decide)
  exact h.2.1

end DockerfileAnalyzer
